import Mathlib

set_option maxRecDepth 8000

set_option allowUnsafeReducibility true in
attribute [semireducible] Rat.add Rat.sub Rat.mul Rat.inv Rat.div Rat.ofScientific

namespace JktAqi

/-! Shallow embedding of src/Data/aqi_formulation.py and of the parts of
src/Data/merge_daily_data.py that the verified properties concern.
Python floats are idealized as rationals; the NaN sentinel is modelled
by the value none of Option. -/

/-- One breakpoint row of the conversion tables in aqi_formulation.py:
the upper concentration bound of a segment together with the bounds of
the matching index range, e.g. the pm25 entry 15.5 with range(1, 51). -/
structure BP where
  conc : ℚ
  lo : ℤ
  hi : ℤ
deriving DecidableEq

/-- The six supported pollutants. -/
inductive Pollutant where
  | pm25 | pm10 | so2 | co | o3 | no2
deriving DecidableEq, Fintype

/-- The conversion table of aqi_formulation.py; both conversion
directions are written with the same numbers in the source. -/
def table : Pollutant → List BP
  | .pm25 => [⟨15.5, 1, 50⟩, ⟨55.4, 51, 100⟩, ⟨150.4, 101, 200⟩, ⟨250.4, 201, 300⟩, ⟨500, 301, 301⟩]
  | .pm10 => [⟨50, 1, 50⟩, ⟨150, 51, 100⟩, ⟨350, 101, 200⟩, ⟨420, 201, 300⟩, ⟨500, 301, 301⟩]
  | .so2 => [⟨52, 1, 50⟩, ⟨180, 51, 100⟩, ⟨400, 101, 200⟩, ⟨800, 201, 300⟩, ⟨1200, 301, 301⟩]
  | .co => [⟨4000, 1, 50⟩, ⟨8000, 51, 100⟩, ⟨15000, 101, 200⟩, ⟨30000, 201, 300⟩, ⟨45000, 301, 301⟩]
  | .o3 => [⟨120, 1, 50⟩, ⟨235, 51, 100⟩, ⟨400, 101, 200⟩, ⟨800, 201, 300⟩, ⟨1000, 301, 301⟩]
  | .no2 => [⟨80, 1, 50⟩, ⟨200, 51, 100⟩, ⟨1130, 101, 200⟩, ⟨2260, 201, 300⟩, ⟨3000, 301, 301⟩]

def dummyBP : BP := ⟨0, 0, 0⟩

/-- The element temp[0] of the python code. -/
def tableFirst (p : Pollutant) : BP := (table p).headD dummyBP

/-- The element temp[-1] of the python code. -/
def tableLast (p : Pollutant) : BP := (table p).getLastD dummyBP

/-- Round half to even, the semantics of the python builtin round with
no second argument, idealized on rationals. -/
def pyRound (q : ℚ) : ℤ :=
  let f := Int.floor q
  let r := q - (f : ℚ)
  if r < 1/2 then f
  else if 1/2 < r then f + 1
  else if f % 2 = 0 then f else f + 1

/-- round(x, 1) of python, idealized on rationals. -/
def pyRound1 (q : ℚ) : ℚ := ((pyRound (10 * q) : ℤ) : ℚ) / 10

/-- Result of one python call: a returned value (none models NaN) or an
uncaught ZeroDivisionError. -/
inductive PyResult where
  | ok (v : Option ℚ)
  | zeroDivisionError
deriving DecidableEq

/-- The for loop of concentration_to_aqi: scan the keys in table order
and break on the first key with Xx <= key, taking that key as the upper
anchor; when Xx is above the last key, break taking the last key. The
lower anchor always comes from the first table entry. Returns none
when no branch ever breaks, in which case the four anchor variables
keep their initial value 0. -/
def findAnchorsConc : List BP → BP → BP → ℚ → Option (ℚ × ℚ × ℤ × ℤ)
  | [], _, _, _ => none
  | b :: rest, first, last, x =>
    if x ≤ b.conc then
      some (b.conc, if first.conc < x then first.conc else 0, b.hi,
        if first.conc < x then first.hi else first.lo)
    else if last.conc < x then
      some (last.conc, if first.conc < x then first.conc else 0, last.hi,
        if first.conc < x then first.hi else first.lo)
    else findAnchorsConc rest first last x

/-- concentration_to_aqi of aqi_formulation.py. The input none models
the NaN sentinel, which is propagated unchanged, as is an input of 0.
Otherwise the result is round(((Ia - Ib) / (Xa - Xb)) * (Xx - Xb) + Ib)
over the anchors selected by the loop. -/
def concentration_to_aqi (p : Pollutant) (xx : Option ℚ) : PyResult :=
  match xx with
  | none => .ok none
  | some x =>
    if x = 0 then .ok (some x)
    else
      match (findAnchorsConc (table p) (tableFirst p) (tableLast p) x).getD (0, 0, 0, 0) with
      | (xa, xb, ia, ib) =>
        if xa = xb then .zeroDivisionError
        else .ok (some ((pyRound ((((ia : ℚ) - (ib : ℚ)) / (xa - xb)) * (x - xb) + (ib : ℚ)) : ℤ) : ℚ))

/-- Membership of a python number in range(lo, hi + 1): an integral
value between lo and hi inclusive. -/
def memRange (lo hi : ℤ) (q : ℚ) : Bool :=
  q.den == 1 && (decide (lo ≤ q.num) && decide (q.num ≤ hi))

/-- The for loop of aqi_to_concentration: break on the first index
range containing I, or, when I is above the maximum of the last range,
break taking the last entry. Returns none when no branch ever breaks,
in which case the four anchor variables keep their initial value 0. -/
def findAnchorsAqi : List BP → BP → BP → ℚ → Option (ℚ × ℚ × ℤ × ℤ)
  | [], _, _, _ => none
  | b :: rest, first, last, q =>
    if memRange b.lo b.hi q then
      some (b.conc, if (first.hi : ℚ) < q then first.conc else 0, b.hi,
        if (first.hi : ℚ) < q then first.hi else 0)
    else if (last.hi : ℚ) < q then
      some (last.conc, first.conc, last.hi,
        if (first.hi : ℚ) < q then first.hi else 0)
    else findAnchorsAqi rest first last q

/-- aqi_to_concentration of aqi_formulation.py. The input none models
the NaN sentinel, which is propagated unchanged, as is an input of 0.
Otherwise the result is round(((Xa - Xb) / (Ia - Ib)) * (I - Ib) + Xb, 1)
over the anchors selected by the loop; when the loop never breaks the
division 0 / 0 raises ZeroDivisionError. -/
def aqi_to_concentration (p : Pollutant) (ii : Option ℚ) : PyResult :=
  match ii with
  | none => .ok none
  | some q =>
    if q = 0 then .ok (some q)
    else
      match (findAnchorsAqi (table p) (tableFirst p) (tableLast p) q).getD (0, 0, 0, 0) with
      | (xa, xb, ia, ib) =>
        if ia = ib then .zeroDivisionError
        else .ok (some (pyRound1 (((xa - xb) / ((ia : ℚ) - (ib : ℚ))) * (q - (ib : ℚ)) + xb)))

/-- The upper anchor as the specification words it: the first table
entry whose concentration bound is at least x, else the last entry. -/
def chooseUpper (tbl : List BP) (lastBP : BP) (x : ℚ) : BP :=
  match tbl.find? (fun b => decide (x ≤ b.conc)) with
  | some b => b
  | none => lastBP

/-- Modelled from the words of claim C1: the interpolation formula with
lower index anchor 0 whenever x does not exceed the first breakpoint. -/
def claimIndexC1 (p : Pollutant) (x : ℚ) : ℤ :=
  let first := tableFirst p
  let u := chooseUpper (table p) (tableLast p) x
  let xb : ℚ := if first.conc < x then first.conc else 0
  let ib : ℤ := if first.conc < x then first.hi else 0
  pyRound ((((u.hi : ℚ) - (ib : ℚ)) / (u.conc - xb)) * (x - xb) + (ib : ℚ))

/-- The interpolation formula with the lower index anchor the code
actually uses: the minimum index of the first sub-range (the value 1)
whenever x does not exceed the first breakpoint. -/
def amendedIndexC1 (p : Pollutant) (x : ℚ) : ℤ :=
  let first := tableFirst p
  let u := chooseUpper (table p) (tableLast p) x
  let xb : ℚ := if first.conc < x then first.conc else 0
  let ib : ℤ := if first.conc < x then first.hi else first.lo
  pyRound ((((u.hi : ℚ) - (ib : ℚ)) / (u.conc - xb)) * (x - xb) + (ib : ℚ))

/-- The breakpoint row at position j of the table of p. -/
def bpAt (p : Pollutant) (j : ℕ) : BP := (table p).getD j dummyBP

/-- The lower concentration bound of sub-range j: the upper bound of
the previous sub-range, or 0 for the first sub-range. -/
def segLowerConc (p : Pollutant) (j : ℕ) : ℚ :=
  if j = 0 then 0 else (bpAt p (j - 1)).conc

/-- The lower anchor aqi_to_concentration uses for indices inside
sub-range j: (0, 0) for the first sub-range, otherwise the first
breakpoint and its maximum index. -/
def codeAnchor (p : Pollutant) (j : ℕ) : ℚ × ℤ :=
  if j = 0 then (0, 0) else ((tableFirst p).conc, (tableFirst p).hi)

/-- The lower anchor of true piecewise interpolation for sub-range j:
the upper bounds of the previous sub-range, or (0, 0) for the first. -/
def trueAnchor (p : Pollutant) (j : ℕ) : ℚ × ℤ :=
  if j = 0 then (0, 0) else ((bpAt p (j - 1)).conc, (bpAt p (j - 1)).hi)

/-- Holds when a call returned an actual numeric value lying between lo
and hi inclusive. -/
def resultWithin (r : PyResult) (lo hi : ℚ) : Bool :=
  match r with
  | .ok (some c) => decide (lo ≤ c) && decide (c ≤ hi)
  | _ => false

/-- Maximum over a list of optional values with the skipna semantics of
the pandas row-wise max in process_daily_aqi_raw_data: missing entries
are ignored; the result is none only when every entry is missing. -/
def nanMax : List (Option ℚ) → Option ℚ
  | [] => none
  | none :: t => nanMax t
  | some q :: t =>
    match nanMax t with
    | none => some q
    | some k => some (max q k)

/-- Scan step of the pandas idxmax semantics: walk the remaining
(name, value) pairs keeping the current best; only a strictly greater
value replaces it, so ties keep the earliest column. -/
def idxmaxGo (bn : String) (bv : ℚ) : List (String × Option ℚ) → String
  | [] => bn
  | (n, some v) :: rest => if bv < v then idxmaxGo n v rest else idxmaxGo bn bv rest
  | (_, none) :: rest => idxmaxGo bn bv rest

/-- The pandas row-wise idxmax of process_daily_aqi_raw_data: the name
paired with the first value attaining the maximum, skipping missing
values; none when every value is missing. -/
def idxmax : List (String × Option ℚ) → Option String
  | [] => none
  | (n, some v) :: rest => some (idxmaxGo n v rest)
  | (_, none) :: rest => idxmax rest

/-- One aggregated station-day row of process_daily_aqi_raw_data,
restricted to the six pollutant sub-index columns, in dataframe order. -/
structure DailyRow where
  pm25 : Option ℚ
  pm10 : Option ℚ
  so2 : Option ℚ
  co : Option ℚ
  o3 : Option ℚ
  no2 : Option ℚ
deriving DecidableEq

/-- The six sub-index cells of a row, in the column order of the frame. -/
def rowSubidx (r : DailyRow) : List (Option ℚ) :=
  [r.pm25, r.pm10, r.so2, r.co, r.o3, r.no2]

/-- The six sub-index column names, in the column order of the frame. -/
def pollutantNames : List String := ["pm25", "pm10", "so2", "co", "o3", "no2"]

/-- Line 340 of merge_daily_data.py: the max column of one row. -/
def rowMax (r : DailyRow) : Option ℚ := nanMax (rowSubidx r)

/-- Line 343 of merge_daily_data.py: the critical column of one row,
the idxmax column name rendered in upper case. -/
def rowCritical (r : DailyRow) : Option String :=
  (idxmax (pollutantNames.zip (rowSubidx r))).map String.toUpper

/-- The kategori_ispu dictionary of merge_daily_data.py, each python
range(a, b) kept as the pair (a, b). -/
def kategoriIspu : List ((ℤ × ℤ) × String) :=
  [((1, 51), "BAIK"), ((51, 101), "SEDANG"), ((101, 201), "TIDAK SEHAT"),
   ((201, 301), "SANGAT TIDAK SEHAT")]

/-- The row categorization loop of process_daily_aqi_raw_data: iterate
the dictionary keys; on each iteration first test max == 0, then
membership of max in the key, then max >= 301, breaking on the first
hit; none models a row where no branch ever hits (no value appended). -/
def categorizeGo (m : ℤ) : List ((ℤ × ℤ) × String) → Option String
  | [] => none
  | (r, lbl) :: rest =>
    if m = 0 then some "TIDAK ADA DATA"
    else if r.1 ≤ m ∧ m < r.2 then some lbl
    else if 301 ≤ m then some "BERBAHAYA"
    else categorizeGo m rest

/-- The category assigned to one integer composite index. -/
def categorize (m : ℤ) : Option String := categorizeGo m kategoriIspu

/-- Modelled from the words of claim C7: index 0 gives the no-data
label, 1 to 50 the first category, 51 to 100 the second, 101 to 200 the
third, 201 to 300 the fourth, and at least 301 the hazardous label. -/
def expectedCategory (m : ℤ) : String :=
  if m = 0 then "TIDAK ADA DATA"
  else if m ≤ 50 then "BAIK"
  else if m ≤ 100 then "SEDANG"
  else if m ≤ 200 then "TIDAK SEHAT"
  else if m ≤ 300 then "SANGAT TIDAK SEHAT"
  else "BERBAHAYA"

/-- One row of the combined table in load_and_process_aqi_raw_data:
station, date (as a day number), and the numeric pollutant cells. -/
structure RawRow where
  stasiun : String
  tanggal : ℤ
  cols : List (Option ℚ)
deriving DecidableEq

/-- A gap-filling row: only station and date are set, every numeric
cell is missing. -/
def blankRow (s : String) (d : ℤ) : RawRow := ⟨s, d, List.replicate 6 none⟩

/-- Test whether a row belongs to the given station and date. -/
def rowKey (s : String) (d : ℤ) (r : RawRow) : Bool :=
  decide (r.stasiun = s) && decide (r.tanggal = d)

/-- Lines 175 to 184 of merge_daily_data.py for one station: the dates
of the full range that the station has no row for, each turned into a
gap-filling row. -/
def missingRowsFor (fullRange : List ℤ) (rows : List RawRow) (s : String) : List RawRow :=
  (fullRange.filter (fun d => !(rows.any (rowKey s d)))).map (blankRow s)

/-- Lines 172 to 190 of merge_daily_data.py: append, for every station,
its gap-filling rows to the combined table. Sorting afterwards does not
change row multiplicities and is omitted. -/
def alignRows (fullRange : List ℤ) (stations : List String) (rows : List RawRow) : List RawRow :=
  rows ++ (stations.map (missingRowsFor fullRange rows)).flatten

/-- The five measurement stations of merge_daily_data.py. -/
def measurementStations : List String :=
  ["DKI1 (Bunderan HI)", "DKI2 (Kelapa Gading)", "DKI3 (Jagakarsa)",
   "DKI4 (Lubang Buaya)", "DKI5 (Kebon Jeruk)"]

/-- The configured date range 2010-01-01 through 2021-12-31 as day
offsets from its start: 4383 consecutive days. -/
def configuredDateRange : List ℤ := (List.range 4383).map Int.ofNat

/-! Theorems. -/

/-- C4: for every supported pollutant, both conversions map 0 to 0 and
propagate the missing sentinel unchanged. -/
theorem c4_zero_and_missing_propagation :
    ∀ p : Pollutant,
      concentration_to_aqi p (some 0) = .ok (some 0) ∧
      aqi_to_concentration p (some 0) = .ok (some 0) ∧
      concentration_to_aqi p none = .ok none ∧
      aqi_to_concentration p none = .ok none := by
  decide

/-- C2 counterexample: concentration_to_aqi applied to pm25 with
concentration 10 does not return 32. -/
theorem c2_counterexample :
    concentration_to_aqi .pm25 (some 10) ≠ .ok (some 32) := by
  decide

/-- C2 (amended): concentration_to_aqi applied to pm25 with
concentration 10 returns the rounded sub-index 33, since the code
computes round((50 - 1) / 15.5 * 10 + 1). -/
theorem c2_pm25_ten_gives_33 :
    concentration_to_aqi .pm25 (some 10) = .ok (some 33) := by
  decide

/-- C3: at a concentration exactly equal to a tabulated breakpoint
bound, concentration_to_aqi returns exactly the maximum index of the
sub-range of that breakpoint, for every pollutant and every breakpoint. -/
theorem c3_breakpoint_maps_to_max_index :
    ∀ p : Pollutant, ∀ b ∈ table p,
      concentration_to_aqi p (some b.conc) = .ok (some (b.hi : ℚ)) := by
  decide

/-- C3 witness: instantiated at the first pm25 breakpoint, 15.5 with
maximum index 50. -/
theorem c3_breakpoint_witness :
    (⟨15.5, 1, 50⟩ : BP) ∈ table .pm25 ∧
      concentration_to_aqi .pm25 (some (⟨15.5, 1, 50⟩ : BP).conc) =
        .ok (some ((⟨15.5, 1, 50⟩ : BP).hi : ℚ)) :=
  ⟨by decide, c3_breakpoint_maps_to_max_index .pm25 ⟨15.5, 1, 50⟩ (by decide)⟩

/-- C9: for every pollutant there is a nonzero, non-missing index value
on which aqi_to_concentration reaches the interpolation step with all
anchors still 0 and raises a division error; 50.5 is such a value. -/
theorem c9_division_error :
    ∀ p : Pollutant, ∃ q : ℚ, q ≠ 0 ∧
      aqi_to_concentration p (some q) = .zeroDivisionError := by
  intro p
  refine ⟨101 / 2, by norm_num, ?_⟩
  cases p <;> decide

/-- C10: concentration_to_aqi is not monotone across segment bounds:
for pm25 the concentration 55.4 gives index 100 while the larger
concentration 55.5 gives index 94. -/
theorem c10_non_monotone :
    (55.4 : ℚ) < 55.5 ∧
      concentration_to_aqi .pm25 (some 55.4) = .ok (some 100) ∧
      concentration_to_aqi .pm25 (some 55.5) = .ok (some 94) := by
  refine ⟨by norm_num, by decide, by decide⟩

/-- C7: the per-row categorization agrees, on every nonnegative integer
composite index, with the mapping claim C7 describes: 0 gives the
no-data label, 1 to 50 the first category, 51 to 100 the second, 101 to
200 the third, 201 to 300 the fourth, at least 301 the hazardous label. -/
theorem c7_categorization (m : ℤ) (hm : 0 ≤ m) :
    categorize m = some (expectedCategory m) := by
  simp only [categorize, kategoriIspu, categorizeGo, expectedCategory]
  split_ifs <;> first | rfl | omega

/-- C7 witness: the boundary value 301 is categorized as hazardous. -/
theorem c7_categorization_witness :
    (0 : ℤ) ≤ 301 ∧ categorize 301 = some (expectedCategory 301) :=
  ⟨by norm_num, c7_categorization 301 (by norm_num)⟩

lemma chooseUpper_conc_pos {tbl : List BP} {lastBP : BP} {x : ℚ}
    (h : ∀ b ∈ tbl, 0 < b.conc) (hl : 0 < lastBP.conc) :
    0 < (chooseUpper tbl lastBP x).conc := by
  unfold chooseUpper
  cases hf : tbl.find? (fun b => decide (x ≤ b.conc)) with
  | none => exact hl
  | some b => exact h b (List.mem_of_find?_eq_some hf)

lemma chooseUpper_conc_gt {tbl : List BP} {first lastBP : BP} {x : ℚ}
    (hx : first.conc < x) (hl : first.conc < lastBP.conc) :
    first.conc < (chooseUpper tbl lastBP x).conc := by
  unfold chooseUpper
  cases hf : tbl.find? (fun b => decide (x ≤ b.conc)) with
  | none => exact hl
  | some b =>
    have hb := List.find?_some hf
    simp only [decide_eq_true_eq] at hb
    exact lt_of_lt_of_le hx hb

lemma findAnchorsConc_eq (tbl : List BP) (first lastBP : BP) (x : ℚ)
    (hlast : tbl.getLast? = some lastBP)
    (hub : ∀ b ∈ tbl, b.conc ≤ lastBP.conc) :
    findAnchorsConc tbl first lastBP x =
      some ((chooseUpper tbl lastBP x).conc,
        if first.conc < x then first.conc else 0,
        (chooseUpper tbl lastBP x).hi,
        if first.conc < x then first.hi else first.lo) := by
  induction tbl with
  | nil => simp at hlast
  | cons b rest ih =>
    by_cases hx : x ≤ b.conc
    · simp [findAnchorsConc, chooseUpper, hx]
    · by_cases hgt : lastBP.conc < x
      · have hnone : (b :: rest).find? (fun c => decide (x ≤ c.conc)) = none := by
          rw [List.find?_eq_none]
          intro c hc
          simp only [decide_eq_true_eq]
          exact not_le.mpr (lt_of_le_of_lt (hub c hc) hgt)
        simp [findAnchorsConc, chooseUpper, hx, hgt, hnone]
      · cases rest with
        | nil =>
          exfalso
          have hb : b = lastBP := by simpa using hlast
          subst hb
          exact hx (not_lt.mp hgt)
        | cons c rest2 =>
          have hlast2 : (c :: rest2).getLast? = some lastBP := by
            simpa [List.getLast?_cons_cons] using hlast
          have hub2 : ∀ b2 ∈ c :: rest2, b2.conc ≤ lastBP.conc := by
            intro b2 hb2
            exact hub b2 (List.mem_cons_of_mem b hb2)
          have hcu : chooseUpper (b :: c :: rest2) lastBP x =
              chooseUpper (c :: rest2) lastBP x := by
            unfold chooseUpper
            rw [List.find?_cons_of_neg]
            simpa using hx
          rw [hcu]
          rw [← ih hlast2 hub2]
          simp [findAnchorsConc, hx, hgt]

/-- C1: the code result equals the interpolation formula with the
lower index anchor amended to the minimum index of the first sub-range
(the value 1, in place of 0 in the claim) when x does not exceed the
first breakpoint; for every pollutant and every nonzero concentration. -/
theorem c1_lower_anchor_formula (p : Pollutant) (x : ℚ) (hx : x ≠ 0) :
    concentration_to_aqi p (some x) = .ok (some ((amendedIndexC1 p x : ℤ) : ℚ)) := by
  have h1 : (table p).getLast? = some (tableLast p) := by cases p <;> rfl
  have h2 : ∀ b ∈ table p, b.conc ≤ (tableLast p).conc := by
    cases p <;> decide
  have h3 : ∀ b ∈ table p, 0 < b.conc := by
    cases p <;> decide
  have h4 : 0 < (tableLast p).conc := by cases p <;> decide
  have h5 : (tableFirst p).conc < (tableLast p).conc := by cases p <;> decide
  have hne : (chooseUpper (table p) (tableLast p) x).conc ≠
      (if (tableFirst p).conc < x then (tableFirst p).conc else 0) := by
    by_cases hgt : (tableFirst p).conc < x
    · rw [if_pos hgt]
      exact (ne_of_gt (chooseUpper_conc_gt hgt h5)).symm.symm
    · rw [if_neg hgt]
      exact ne_of_gt (chooseUpper_conc_pos h3 h4)
  simp only [concentration_to_aqi, hx, if_neg, if_false]
  rw [findAnchorsConc_eq (table p) (tableFirst p) (tableLast p) x h1 h2]
  simp only [Option.getD_some]
  rw [if_neg hne]
  simp [amendedIndexC1]

/-- C1 witness: the amended formula instantiated at pm25 and
concentration 10. -/
theorem c1_lower_anchor_formula_witness :
    (10 : ℚ) ≠ 0 ∧
      concentration_to_aqi .pm25 (some 10) = .ok (some ((amendedIndexC1 .pm25 10 : ℤ) : ℚ)) :=
  ⟨by norm_num, c1_lower_anchor_formula .pm25 10 (by norm_num)⟩

/-- C1 counterexample: at pm25 and concentration 10 the code does not
return the value of the formula exactly as claim C1 words it (which
gives 32, while the code returns 33). -/
theorem c1_counterexample :
    concentration_to_aqi .pm25 (some 10) ≠ .ok (some ((claimIndexC1 .pm25 10 : ℤ) : ℚ)) := by
  decide

/-- C5: for every pollutant and every index sub-range whose code lower
anchor coincides with the true piecewise lower anchor (the sub-ranges
not affected by the lower-anchor rule), every integer index inside the
sub-range is mapped by aqi_to_concentration to a concentration between
the lower and upper concentration bounds of that sub-range, inclusive. -/
theorem c5_range_bounds_unaffected :
    ∀ p : Pollutant, ∀ j ∈ Finset.range 5, codeAnchor p j = trueAnchor p j →
      ∀ i ∈ Finset.Icc (bpAt p j).lo (bpAt p j).hi,
        resultWithin (aqi_to_concentration p (some (i : ℚ)))
          (segLowerConc p j) (bpAt p j).conc = true := by
  decide

/-- C5 witness: instantiated at pm25, the second sub-range, index 51. -/
theorem c5_range_bounds_witness :
    1 ∈ Finset.range 5 ∧ codeAnchor .pm25 1 = trueAnchor .pm25 1 ∧
      (51 : ℤ) ∈ Finset.Icc (bpAt .pm25 1).lo (bpAt .pm25 1).hi ∧
      resultWithin (aqi_to_concentration .pm25 (some ((51 : ℤ) : ℚ)))
        (segLowerConc .pm25 1) (bpAt .pm25 1).conc = true :=
  ⟨by decide, by decide, by decide,
    c5_range_bounds_unaffected .pm25 1 (by decide) (by decide) 51 (by decide)⟩

lemma nanMax_cons_some_none {t : List (Option ℚ)} {w : ℚ}
    (ht : nanMax t = none) : nanMax (some w :: t) = some w := by
  simp [nanMax, ht]

lemma nanMax_cons_some_some {t : List (Option ℚ)} {w k : ℚ}
    (ht : nanMax t = some k) : nanMax (some w :: t) = some (max w k) := by
  simp [nanMax, ht]

lemma nanMax_cons_some_ne_none {t : List (Option ℚ)} {w : ℚ} :
    nanMax (some w :: t) ≠ none := by
  cases ht : nanMax t with
  | none => rw [nanMax_cons_some_none ht]; simp
  | some k => rw [nanMax_cons_some_some ht]; simp

lemma nanMax_not_mem_of_none {l : List (Option ℚ)} :
    nanMax l = none → ∀ q : ℚ, some q ∈ l → False := by
  induction l with
  | nil => intro h q hq; simp at hq
  | cons v t ih =>
    intro h q hq
    cases v with
    | none =>
      simp only [nanMax] at h
      rcases List.mem_cons.mp hq with h1 | h1
      · exact Option.noConfusion h1
      · exact ih h q h1
    | some w => exact absurd h nanMax_cons_some_ne_none

lemma nanMax_mem {l : List (Option ℚ)} : ∀ {m : ℚ}, nanMax l = some m → some m ∈ l := by
  induction l with
  | nil => intro m h; simp [nanMax] at h
  | cons v t ih =>
    intro m h
    cases v with
    | none =>
      simp only [nanMax] at h
      exact List.mem_cons_of_mem _ (ih h)
    | some w =>
      cases ht : nanMax t with
      | none =>
        rw [nanMax_cons_some_none ht] at h
        injection h with h2
        subst h2
        exact List.mem_cons_self _ _
      | some k =>
        rw [nanMax_cons_some_some ht] at h
        injection h with h2
        rcases max_choice w k with hc | hc
        · rw [hc] at h2
          subst h2
          exact List.mem_cons_self _ _
        · rw [hc] at h2
          subst h2
          exact List.mem_cons_of_mem _ (ih ht)

lemma nanMax_le {l : List (Option ℚ)} : ∀ {m : ℚ}, nanMax l = some m →
    ∀ q : ℚ, some q ∈ l → q ≤ m := by
  induction l with
  | nil => intro m h; simp [nanMax] at h
  | cons v t ih =>
    intro m h q hq
    cases v with
    | none =>
      simp only [nanMax] at h
      rcases List.mem_cons.mp hq with h1 | h1
      · exact Option.noConfusion h1
      · exact ih h q h1
    | some w =>
      cases ht : nanMax t with
      | none =>
        rw [nanMax_cons_some_none ht] at h
        injection h with h2
        rcases List.mem_cons.mp hq with h1 | h1
        · injection h1 with h3
          rw [h3, ← h2]
        · exact absurd h1 (nanMax_not_mem_of_none ht q)
      | some k =>
        rw [nanMax_cons_some_some ht] at h
        injection h with h2
        rcases List.mem_cons.mp hq with h1 | h1
        · injection h1 with h3
          rw [h3, ← h2]
          exact le_max_left _ _
        · rw [← h2]
          exact le_trans (ih ht q h1) (le_max_right _ _)

lemma idxmaxGo_spec (rest : List (String × Option ℚ)) :
    ∀ (bn : String) (bv m : ℚ),
      nanMax (some bv :: rest.map Prod.snd) = some m →
      some (idxmaxGo bn bv rest) =
        (((bn, some bv) :: rest).find? (fun pr => decide (pr.2 = some m))).map Prod.fst := by
  induction rest with
  | nil =>
    intro bn bv m h
    simp only [List.map_nil] at h
    simp only [nanMax] at h
    injection h with h2
    subst h2
    simp [idxmaxGo]
  | cons hd tl ih =>
    intro bn bv m h
    obtain ⟨n, vo⟩ := hd
    cases vo with
    | none =>
      have hmap : ((n, (none : Option ℚ)) :: tl).map Prod.snd = none :: tl.map Prod.snd := rfl
      rw [hmap] at h
      have h4 : ∀ z : Option ℚ, nanMax (tl.map Prod.snd) = z →
          nanMax ((none : Option ℚ) :: tl.map Prod.snd) = z := by
        intro z hz
        simpa [nanMax] using hz
      have h5 : nanMax (some bv :: tl.map Prod.snd) = some m := by
        cases htl : nanMax (tl.map Prod.snd) with
        | none =>
          rw [nanMax_cons_some_none (h4 none htl)] at h
          rw [nanMax_cons_some_none htl]
          exact h
        | some k =>
          rw [nanMax_cons_some_some (h4 (some k) htl)] at h
          rw [nanMax_cons_some_some htl]
          exact h
      have hgo : idxmaxGo bn bv ((n, none) :: tl) = idxmaxGo bn bv tl := by
        simp [idxmaxGo]
      rw [hgo, ih bn bv m h5]
      by_cases hb : bv = m
      · rw [List.find?_cons_of_pos _ (by simp [hb]), List.find?_cons_of_pos _ (by simp [hb])]
      · rw [List.find?_cons_of_neg _ (by simp [hb]), List.find?_cons_of_neg _ (by simp [hb]),
          List.find?_cons_of_neg _ (by simp)]
    | some v =>
      have hmap : ((n, some v) :: tl).map Prod.snd = some v :: tl.map Prod.snd := rfl
      rw [hmap] at h
      by_cases hlt : bv < v
      · cases hvm : nanMax (some v :: tl.map Prod.snd) with
        | none => exact absurd hvm nanMax_cons_some_ne_none
        | some k =>
          rw [nanMax_cons_some_some hvm] at h
          injection h with h2
          have hkv : v ≤ k := nanMax_le hvm v (by simp)
          have hbvk : bv < k := lt_of_lt_of_le hlt hkv
          have hmk : m = k := by
            rw [← h2]
            exact max_eq_right (le_of_lt hbvk)
          rw [← hmk] at hvm hbvk
          have hgo : idxmaxGo bn bv ((n, some v) :: tl) = idxmaxGo n v tl := by
            simp [idxmaxGo, hlt]
          rw [hgo, ih n v m hvm]
          have hbm : ¬ (bv = m) := fun he => absurd (he ▸ hbvk) (lt_irrefl m)
          conv_rhs => rw [List.find?_cons_of_neg _ (by simp [hbm])]
      · have hvb : v ≤ bv := not_lt.mp hlt
        have h5 : nanMax (some bv :: tl.map Prod.snd) = some m := by
          cases htl : nanMax (tl.map Prod.snd) with
          | none =>
            rw [nanMax_cons_some_some (nanMax_cons_some_none htl)] at h
            rw [nanMax_cons_some_none htl]
            injection h with h2
            rw [← h2, max_eq_left hvb]
          | some k =>
            rw [nanMax_cons_some_some (nanMax_cons_some_some htl)] at h
            rw [nanMax_cons_some_some htl]
            injection h with h2
            rw [← h2, ← max_assoc, max_eq_left hvb]
        have hgo : idxmaxGo bn bv ((n, some v) :: tl) = idxmaxGo bn bv tl := by
          simp [idxmaxGo, hlt]
        rw [hgo, ih bn bv m h5]
        by_cases hb : bv = m
        · rw [List.find?_cons_of_pos _ (by simp [hb]), List.find?_cons_of_pos _ (by simp [hb])]
        · have hbm : bv ≤ m := nanMax_le h5 bv (by simp)
          have hvm2 : ¬ (v = m) := fun he => hb (le_antisymm hbm (he ▸ hvb))
          rw [List.find?_cons_of_neg _ (by simp [hb]), List.find?_cons_of_neg _ (by simp [hb]),
            List.find?_cons_of_neg _ (by simp [hvm2])]

lemma idxmax_spec : ∀ (l : List (String × Option ℚ)) (m : ℚ),
    nanMax (l.map Prod.snd) = some m →
    idxmax l = (l.find? (fun pr => decide (pr.2 = some m))).map Prod.fst := by
  intro l
  induction l with
  | nil => intro m h; simp [nanMax] at h
  | cons hd tl ih =>
    intro m h
    obtain ⟨n, vo⟩ := hd
    cases vo with
    | none =>
      have hmap : ((n, (none : Option ℚ)) :: tl).map Prod.snd = none :: tl.map Prod.snd := rfl
      rw [hmap] at h
      simp only [nanMax] at h
      have hgo : idxmax ((n, (none : Option ℚ)) :: tl) = idxmax tl := by
        simp [idxmax]
      rw [hgo, ih m h, List.find?_cons_of_neg _ (by simp)]
    | some v =>
      have hmap : ((n, some v) :: tl).map Prod.snd = some v :: tl.map Prod.snd := rfl
      rw [hmap] at h
      have hgo : idxmax ((n, some v) :: tl) = some (idxmaxGo n v tl) := by
        simp [idxmax]
      rw [hgo]
      exact idxmaxGo_spec tl n v m h

/-- C6: whenever the row-wise max over the six sub-index columns gives
a value m, that value is attained by one of the columns and bounds all
present columns, and the critical column holds the upper-cased name of
the first column attaining m, in the order pm25, pm10, so2, co, o3,
no2. -/
theorem c6_composite_max_and_critical (r : DailyRow) (m : ℚ)
    (h : rowMax r = some m) :
    some m ∈ rowSubidx r ∧
      (∀ q : ℚ, some q ∈ rowSubidx r → q ≤ m) ∧
      rowCritical r =
        ((pollutantNames.zip (rowSubidx r)).find?
          (fun pr => decide (pr.2 = some m))).map (fun pr => pr.1.toUpper) := by
  refine ⟨nanMax_mem h, nanMax_le h, ?_⟩
  unfold rowCritical
  have hmap : (pollutantNames.zip (rowSubidx r)).map Prod.snd = rowSubidx r := rfl
  rw [idxmax_spec _ m (by rw [hmap]; exact h)]
  cases hfind : (pollutantNames.zip (rowSubidx r)).find? (fun pr => decide (pr.2 = some m)) with
  | none => simp
  | some pr => simp

/-- C6 witness: a concrete row with a tie at the maximum 20 between the
pm10 and co columns; the earlier column pm10 wins. -/
theorem c6_composite_witness :
    rowMax ⟨some 10, some 20, none, some 20, some 5, none⟩ = some 20 ∧
      (some 20 ∈ rowSubidx ⟨some 10, some 20, none, some 20, some 5, none⟩ ∧
        (∀ q : ℚ, some q ∈ rowSubidx ⟨some 10, some 20, none, some 20, some 5, none⟩ → q ≤ 20) ∧
        rowCritical ⟨some 10, some 20, none, some 20, some 5, none⟩ =
          ((pollutantNames.zip (rowSubidx ⟨some 10, some 20, none, some 20, some 5, none⟩)).find?
            (fun pr => decide (pr.2 = some 20))).map (fun pr => pr.1.toUpper)) :=
  ⟨by decide, c6_composite_max_and_critical _ 20 (by decide)⟩

lemma countP_pred_single {l : List ℤ} {d : ℤ} (q : ℤ → Bool) :
    l.Nodup → d ∈ l →
    l.countP (fun e => decide (e = d) && q e) = if q d then 1 else 0 := by
  induction l with
  | nil => intro _ hd; simp at hd
  | cons a t ih =>
    intro hl hd
    rw [List.countP_cons]
    rcases List.nodup_cons.mp hl with ⟨hna, hnt⟩
    by_cases had : a = d
    · subst had
      have h0 : t.countP (fun e => decide (e = a) && q e) = 0 := by
        apply List.countP_eq_zero.mpr
        intro e he
        by_cases hea : e = a
        · subst hea; exact absurd he hna
        · simp [hea]
      rw [h0]
      simp
    · have hd2 : d ∈ t := by
        rcases List.mem_cons.mp hd with h1 | h1
        · exact absurd h1.symm had
        · exact h1
      rw [ih hnt hd2]
      simp [had]

lemma countP_missingRows_ne (fullRange : List ℤ) (rows : List RawRow)
    {s s2 : String} (d : ℤ) (hne : s2 ≠ s) :
    (missingRowsFor fullRange rows s2).countP (rowKey s d) = 0 := by
  unfold missingRowsFor
  rw [List.countP_map]
  apply List.countP_eq_zero.mpr
  intro e _
  simp [Function.comp, rowKey, blankRow, hne]

lemma countP_missingRows_self (fullRange : List ℤ) (rows : List RawRow)
    (s : String) {d : ℤ} (hfr : fullRange.Nodup) (hd : d ∈ fullRange) :
    (missingRowsFor fullRange rows s).countP (rowKey s d) =
      if rows.countP (rowKey s d) = 0 then 1 else 0 := by
  unfold missingRowsFor
  rw [List.countP_map, List.countP_filter]
  have hcongr : ∀ e ∈ fullRange,
      (((rowKey s d ∘ blankRow s) e && !(rows.any (rowKey s e))) = true ↔
        (decide (e = d) && !(rows.any (rowKey s e))) = true) := by
    intro e _
    simp [Function.comp, rowKey, blankRow]
  rw [List.countP_congr hcongr]
  rw [countP_pred_single (fun e => !(rows.any (rowKey s e))) hfr hd]
  by_cases hz : rows.countP (rowKey s d) = 0
  · have hany : rows.any (rowKey s d) = false := by
      rw [List.any_eq_false]
      intro r hr
      exact (List.countP_eq_zero.mp hz) r hr
    simp [hz, hany]
  · have hpos : 0 < rows.countP (rowKey s d) := Nat.pos_of_ne_zero hz
    rcases List.countP_pos_iff.mp hpos with ⟨r, hr, hpr⟩
    have hany : rows.any (rowKey s d) = true := List.any_eq_true.mpr ⟨r, hr, hpr⟩
    simp [hz, hany]

lemma sum_map_single {s : String} (f : String → ℕ) (hf : ∀ s2, s2 ≠ s → f s2 = 0) :
    ∀ {stations : List String}, stations.Nodup → s ∈ stations →
      (stations.map f).sum = f s := by
  intro stations
  induction stations with
  | nil => intro _ hs; simp at hs
  | cons a t ih =>
    intro hst hs
    rcases List.nodup_cons.mp hst with ⟨hna, hnt⟩
    rw [List.map_cons, List.sum_cons]
    by_cases has : a = s
    · subst has
      have h0 : (t.map f).sum = 0 := by
        apply List.sum_eq_zero
        intro x hx
        rcases List.mem_map.mp hx with ⟨s2, hs2, rfl⟩
        apply hf
        intro hcon
        subst hcon
        exact hna hs2
      simp [h0]
    · have hs2 : s ∈ t := by
        rcases List.mem_cons.mp hs with h1 | h1
        · exact absurd h1.symm has
        · exact h1
      rw [hf a has, ih hnt hs2, Nat.zero_add]

lemma rangeCast_nodup (n : ℕ) : ((List.range n).map Int.ofNat).Nodup :=
  List.Nodup.map (fun _ _ hab => Int.ofNat.inj hab) (List.nodup_range n)

lemma configuredDateRange_nodup : configuredDateRange.Nodup :=
  rangeCast_nodup 4383

lemma measurementStations_nodup : measurementStations.Nodup := by decide

lemma align_count (fullRange : List ℤ) (stations : List String) (rows : List RawRow)
    (s : String) (d : ℤ) (hfr : fullRange.Nodup) (hst : stations.Nodup)
    (hdup : rows.countP (rowKey s d) ≤ 1) (hs : s ∈ stations) (hd : d ∈ fullRange) :
    (alignRows fullRange stations rows).countP (rowKey s d) = 1 := by
  unfold alignRows
  rw [List.countP_append, List.countP_flatten, List.map_map]
  have hsum : (stations.map (List.countP (rowKey s d) ∘ missingRowsFor fullRange rows)).sum
      = if rows.countP (rowKey s d) = 0 then 1 else 0 := by
    have hstep := sum_map_single (List.countP (rowKey s d) ∘ missingRowsFor fullRange rows)
      (fun s2 hne => countP_missingRows_ne fullRange rows d hne) hst hs
    rw [hstep]
    exact countP_missingRows_self fullRange rows s hfr hd
  rw [hsum]
  by_cases hz : rows.countP (rowKey s d) = 0
  · simp [hz]
  · have h1 : rows.countP (rowKey s d) = 1 := le_antisymm hdup (Nat.pos_of_ne_zero hz)
    simp [h1, hz]

/-- C8: when the input table has at most one row per station and date,
the aligned table has exactly one row for every monitored station and
every date of the configured range 2010-01-01 through 2021-12-31. -/
theorem c8_alignment_exactly_one (rows : List RawRow)
    (hdup : ∀ s d, rows.countP (rowKey s d) ≤ 1) :
    ∀ s ∈ measurementStations, ∀ d ∈ configuredDateRange,
      (alignRows configuredDateRange measurementStations rows).countP (rowKey s d) = 1 := by
  intro s hs d hd
  exact align_count configuredDateRange measurementStations rows s d
    configuredDateRange_nodup measurementStations_nodup (hdup s d) hs hd

/-- C8 witness: the empty input aligned over the configured range holds
exactly one row for station DKI1 at day offset 0. -/
theorem c8_alignment_witness :
    (∀ s d, ([] : List RawRow).countP (rowKey s d) ≤ 1) ∧
      "DKI1 (Bunderan HI)" ∈ measurementStations ∧
      (0 : ℤ) ∈ configuredDateRange ∧
      (alignRows configuredDateRange measurementStations []).countP
        (rowKey "DKI1 (Bunderan HI)" 0) = 1 := by
  have hmem : (0 : ℤ) ∈ configuredDateRange := by
    unfold configuredDateRange
    have h0 : (0 : ℕ) ∈ List.range 4383 := List.mem_range.mpr (by norm_num)
    exact List.mem_map.mpr ⟨0, h0, rfl⟩
  exact ⟨fun s d => by simp, by decide, hmem,
    c8_alignment_exactly_one [] (fun s d => by simp) "DKI1 (Bunderan HI)" (by decide) 0 hmem⟩
end JktAqi
